import Mathlib

/-!
Verification of the concurrent game-analysis pipeline of chess-analyzer-desktop.

Each Python component relevant to the claims is shallowly embedded:

* Python `dict`s become association lists built left-to-right with a
  right-biased insert (`dinsert`, `pydict`), matching `d[k] = v` semantics.
* `asyncio.Queue` accounting (`put` increments `_unfinished_tasks`,
  `task_done` decrements it, `join` waits until it reaches zero) is made
  explicit in the scheduler and writer models.
* Async interleavings are modelled by fixing a legal schedule (stated in
  each definition's doc comment) or by a step relation over operation traces.
-/

set_option autoImplicit false

namespace ChessAnalyzer

/-! ### Association lists modelling Python dicts -/

/-- Lookup in an association list: the value of the first pair whose key
matches.  On lists built by `dinsert`/`pydict` keys are unique, so this
agrees with Python dict lookup. -/
def alookup {α β : Type} [DecidableEq α] : List (α × β) → α → Option β
  | [], _ => none
  | (k, v) :: rest, a => if a = k then some v else alookup rest a

/-- Python `d[k] = v`: overwrite the value at `k` in place if present,
otherwise append the new binding at the end. -/
def dinsert {α β : Type} [DecidableEq α] (m : List (α × β)) (k : α) (v : β) : List (α × β) :=
  if (alookup m k).isSome then m.map (fun p => if p.1 = k then (k, v) else p)
  else m ++ [(k, v)]

/-- Build a Python dict from a list of pairs (`{k: v for (k, v) in l}`):
later occurrences of a key overwrite earlier ones. -/
def pydict {α β : Type} [DecidableEq α] (l : List (α × β)) : List (α × β) :=
  l.foldl (fun m p => dinsert m p.1 p.2) []

theorem alookup_isSome_iff_mem_keys {α β : Type} [DecidableEq α]
    (m : List (α × β)) (a : α) :
    (alookup m a).isSome ↔ a ∈ m.map Prod.fst := by
  induction m with
  | nil => simp [alookup]
  | cons p rest ih =>
    by_cases h : a = p.1
    · subst h; simp [alookup]
    · simp [alookup, h, ih]

theorem alookup_overwrite_self {α β : Type} [DecidableEq α]
    (m : List (α × β)) (k : α) (v : β) (h : (alookup m k).isSome) :
    alookup (m.map (fun p => if p.1 = k then (k, v) else p)) k = some v := by
  induction m with
  | nil => simp [alookup] at h
  | cons p rest ih =>
    simp only [List.map_cons]
    by_cases hp : p.1 = k
    · rw [if_pos hp]
      simp [alookup]
    · rw [if_neg hp]
      have hk : ¬k = p.1 := fun hh => hp hh.symm
      rw [alookup, if_neg hk] at h ⊢
      exact ih h

theorem alookup_overwrite_ne {α β : Type} [DecidableEq α]
    (m : List (α × β)) (k a : α) (v : β) (hne : a ≠ k) :
    alookup (m.map (fun p => if p.1 = k then (k, v) else p)) a = alookup m a := by
  induction m with
  | nil => rfl
  | cons p rest ih =>
    simp only [List.map_cons]
    by_cases hp : p.1 = k
    · rw [if_pos hp]
      have hap : ¬a = p.1 := fun hh => hne (hp ▸ hh)
      have hak : ¬a = (k, v).1 := hne
      rw [alookup, alookup, if_neg hap, if_neg hak, ih]
    · rw [if_neg hp]
      simp only [alookup, ih]

theorem alookup_append_single_self {α β : Type} [DecidableEq α]
    (m : List (α × β)) (k : α) (v : β) (h : alookup m k = none) :
    alookup (m ++ [(k, v)]) k = some v := by
  induction m with
  | nil => simp [alookup]
  | cons p rest ih =>
    by_cases hk : k = p.1
    · rw [alookup, if_pos hk] at h
      cases h
    · rw [alookup, if_neg hk] at h
      rw [List.cons_append, alookup, if_neg hk]
      exact ih h

theorem alookup_append_single_ne {α β : Type} [DecidableEq α]
    (m : List (α × β)) (k a : α) (v : β) (hne : a ≠ k) :
    alookup (m ++ [(k, v)]) a = alookup m a := by
  induction m with
  | nil => simp [alookup, hne]
  | cons p rest ih =>
    rw [List.cons_append, alookup, alookup, ih]

theorem alookup_dinsert_self {α β : Type} [DecidableEq α]
    (m : List (α × β)) (k : α) (v : β) :
    alookup (dinsert m k v) k = some v := by
  unfold dinsert
  by_cases h : (alookup m k).isSome
  · rw [if_pos h]
    exact alookup_overwrite_self m k v h
  · rw [if_neg h]
    exact alookup_append_single_self m k v (Option.not_isSome_iff_eq_none.mp h)

theorem alookup_dinsert_ne {α β : Type} [DecidableEq α]
    (m : List (α × β)) (k a : α) (v : β) (hne : a ≠ k) :
    alookup (dinsert m k v) a = alookup m a := by
  unfold dinsert
  by_cases h : (alookup m k).isSome
  · rw [if_pos h]
    exact alookup_overwrite_ne m k a v hne
  · rw [if_neg h]
    exact alookup_append_single_ne m k a v hne

theorem alookup_dinsert_isSome {α β : Type} [DecidableEq α]
    (m : List (α × β)) (k a : α) (v : β) :
    (alookup (dinsert m k v) a).isSome ↔ a = k ∨ (alookup m a).isSome := by
  by_cases h : a = k
  · subst h; simp [alookup_dinsert_self]
  · rw [alookup_dinsert_ne m k a v h]
    simp [h]

theorem alookup_foldl_dinsert_isSome {α β : Type} [DecidableEq α]
    (l : List (α × β)) (acc : List (α × β)) (a : α) :
    (alookup (l.foldl (fun m p => dinsert m p.1 p.2) acc) a).isSome ↔
      (alookup acc a).isSome ∨ a ∈ l.map Prod.fst := by
  induction l generalizing acc with
  | nil => simp
  | cons p rest ih =>
    rw [List.foldl_cons, ih]
    rw [alookup_dinsert_isSome]
    simp only [List.map_cons, List.mem_cons]
    tauto

theorem alookup_pydict_isSome {α β : Type} [DecidableEq α]
    (l : List (α × β)) (a : α) :
    (alookup (pydict l) a).isSome ↔ a ∈ l.map Prod.fst := by
  rw [pydict, alookup_foldl_dinsert_isSome]
  simp [alookup]

/-- A successful lookup corresponds to a pair actually present in the list. -/
theorem alookup_mem {α β : Type} [DecidableEq α]
    (m : List (α × β)) (a : α) (w : β) (h : alookup m a = some w) : (a, w) ∈ m := by
  induction m with
  | nil => cases h
  | cons p rest ih =>
    rw [alookup] at h
    by_cases hap : a = p.1
    · rw [if_pos hap] at h
      have hw : w = p.2 := Option.some_inj.mp h.symm
      subst hap; subst hw; simp
    · rw [if_neg hap] at h
      exact List.mem_cons_of_mem _ (ih h)

/-- Every pair of `dinsert m k v` is the freshly inserted pair or a pair of `m`. -/
theorem mem_dinsert {α β : Type} [DecidableEq α]
    (m : List (α × β)) (k : α) (v : β) (x : α × β)
    (h : x ∈ dinsert m k v) : x = (k, v) ∨ x ∈ m := by
  unfold dinsert at h
  by_cases hs : (alookup m k).isSome
  · rw [if_pos hs] at h
    rcases List.mem_map.mp h with ⟨q, hq, heq⟩
    by_cases hqk : q.1 = k
    · rw [if_pos hqk] at heq
      exact Or.inl heq.symm
    · rw [if_neg hqk] at heq
      exact Or.inr (heq ▸ hq)
  · rw [if_neg hs] at h
    rcases List.mem_append.mp h with h1 | h1
    · exact Or.inr h1
    · exact Or.inl (List.mem_singleton.mp h1)

theorem mem_foldl_dinsert {α β : Type} [DecidableEq α]
    (l acc : List (α × β)) (x : α × β)
    (h : x ∈ l.foldl (fun m p => dinsert m p.1 p.2) acc) : x ∈ l ∨ x ∈ acc := by
  induction l generalizing acc with
  | nil => exact Or.inr h
  | cons p rest ih =>
    rw [List.foldl_cons] at h
    rcases ih _ h with hl | hacc
    · exact Or.inl (List.mem_cons_of_mem _ hl)
    · rcases mem_dinsert _ _ _ _ hacc with h1 | h1
      · left
        rw [h1]
        simp
      · exact Or.inr h1

/-- Every binding found in a `pydict` is one of the input pairs. -/
theorem alookup_pydict_mem {α β : Type} [DecidableEq α]
    (l : List (α × β)) (a : α) (w : β)
    (h : alookup (pydict l) a = some w) : (a, w) ∈ l := by
  rcases mem_foldl_dinsert l [] (a, w) (alookup_mem _ _ _ h) with h1 | h1
  · exact h1
  · cases h1

/-! ### Scheduler accounting (`GameProcessorPool.run`)

`orchestration/game_processor_pool.py` uses one `asyncio.Queue` as its
completion barrier: `put`/`put_nowait` increments the queue's unfinished-task
counter, `task_done` decrements it, and `join` returns only once the counter
is zero.  The model makes that counter explicit and embeds `_done_callback`
(lines 83-130) literally: `task_done` exactly on a terminal outcome, a
re-push (`put_nowait`) and no `task_done` on an engine-error retry. -/

/-- The ways a game-processing task can finish, as classified by
`GameProcessorPool.run._done_callback`. -/
inductive TaskOutcome where
  | success (hasSummary : Bool)
  | pgnParsingError
  | engineError
  | cancelled
  | unhandledError
deriving DecidableEq

/-- State of `GameProcessorPool.run`: the work queue's buffered items
(`none` is the producer's sentinel), the queue's unfinished-task counter,
a ghost count of `task_done` calls, `self._retry_counts`, and
`all_results` (ids of games appended with a summary). -/
structure SchedulerState where
  queue : List (Option String)
  unfinished : Nat
  taskDones : Nat
  retryCounts : List (String × Nat)
  results : List String
deriving DecidableEq

/-- `self._retry_counts[game_id]` with `defaultdict(int)` semantics. -/
def rcGet (m : List (String × Nat)) (g : String) : Nat := (alookup m g).getD 0

/-- `work_queue.task_done()`: decrement the unfinished-task counter. -/
def queueTaskDone (st : SchedulerState) : SchedulerState :=
  { st with unfinished := st.unfinished - 1, taskDones := st.taskDones + 1 }

/-- `work_queue.put_nowait(original_game)` on the retry path: re-push the
game and increment the unfinished-task counter. -/
def queueRequeue (g : String) (st : SchedulerState) : SchedulerState :=
  { st with queue := st.queue ++ [some g], unfinished := st.unfinished + 1 }

/-- `GameProcessorPool.run._done_callback`, per task outcome:
success and every permanent failure call `task_done` once; an engine error
with retry budget left increments the retry count and re-pushes the game
without calling `task_done`. -/
def doneCallback (maxRetries : Nat) (g : String) (outcome : TaskOutcome)
    (st : SchedulerState) : SchedulerState :=
  match outcome with
  | .success hasSummary =>
      queueTaskDone { st with results := if hasSummary then st.results ++ [g] else st.results }
  | .pgnParsingError => queueTaskDone st
  | .engineError =>
      if rcGet st.retryCounts g < maxRetries then
        queueRequeue g { st with retryCounts := dinsert st.retryCounts g (rcGet st.retryCounts g + 1) }
      else queueTaskDone st
  | .cancelled => queueTaskDone st
  | .unhandledError => queueTaskDone st

/-- The producer `_filler` having streamed every game and pushed the `None`
sentinel: each `put` incremented the unfinished-task counter, so it starts
at `games.length + 1`. -/
def enqueueJobs (games : List String) : SchedulerState :=
  { queue := games.map some ++ [none], unfinished := games.length + 1,
    taskDones := 0, retryCounts := [], results := [] }

/-- The consumer loop of `GameProcessorPool.run` under the legal schedule in
which `_filler` finishes first and each spawned task's done-callback runs
before the consumer's next `work_queue.get()`.  `attempts g n` is the outcome
of the task for game `g` whose dispatch sees retry count `n`.  The loop gets
items in FIFO order and breaks on the sentinel, which is matched by no
`task_done`; `fuel` bounds the iteration count. -/
def consumerLoop (maxRetries : Nat) (attempts : String → Nat → TaskOutcome) :
    Nat → SchedulerState → SchedulerState
  | 0, st => st
  | fuel + 1, st =>
    match st.queue with
    | [] => st
    | none :: rest => { st with queue := rest }
    | some g :: rest =>
        consumerLoop maxRetries attempts fuel
          (doneCallback maxRetries g (attempts g (rcGet st.retryCounts g)) { st with queue := rest })

/-- `work_queue.join()` returns exactly when the unfinished-task counter is 0. -/
def joinSatisfied (st : SchedulerState) : Bool := st.unfinished == 0

/-- Attempt script for the C1 scenario: the game fails with an engine error
on its first two attempts and would succeed (with a summary) on the third. -/
def failTwiceThenSucceed : String → Nat → TaskOutcome := fun _ attempt =>
  if attempt < 2 then .engineError else .success true

/-- C1: with `max_retries = 3` and a single job scripted to fail with engine
errors twice and succeed on its third attempt, the claimed behaviour (the
completion barrier satisfied exactly once for the job, `task_done` recorded
once on terminal success, and `run` returning a one-entry result list) does
not occur.  The retry re-push lands behind the already-enqueued sentinel, so
the consumer loop breaks before ever re-dispatching the job: no `task_done`
is ever recorded for it, the result list stays empty, and the unfinished-task
counter ends at 3 (initial put + sentinel + one re-push, minus zero
`task_done`s), so `work_queue.join()` — and hence `run` — never returns. -/
theorem gameProcessorPool_retry_accounting_bug :
    (consumerLoop 3 failTwiceThenSucceed 10 (enqueueJobs ["g1"])).taskDones = 0 ∧
    (consumerLoop 3 failTwiceThenSucceed 10 (enqueueJobs ["g1"])).results = [] ∧
    (consumerLoop 3 failTwiceThenSucceed 10 (enqueueJobs ["g1"])).unfinished = 3 ∧
    (consumerLoop 3 failTwiceThenSucceed 10 (enqueueJobs ["g1"])).queue = [some "g1"] ∧
    joinSatisfied (consumerLoop 3 failTwiceThenSucceed 10 (enqueueJobs ["g1"])) = false := by
  refine ⟨rfl, rfl, rfl, rfl, rfl⟩

/-- C2: `GameProcessorPool.run` does not terminate on finite job sources.
Even for a single job that succeeds immediately (first conjunct), the
producer's sentinel `put` is matched by no `task_done`, leaving the
unfinished-task counter at 1, so `work_queue.join()` never returns; and for
a job scripted to always fail with engine errors under `max_retries = 1`
(second conjunct), the retry re-push is parked behind the consumed sentinel
and the counter ends at 3, so the run deadlocks on the completion barrier
instead of returning with the job absent from the success list. -/
theorem gameProcessorPool_join_never_satisfied :
    (joinSatisfied (consumerLoop 3 (fun _ _ => .success true) 10 (enqueueJobs ["g1"])) = false ∧
     (consumerLoop 3 (fun _ _ => .success true) 10 (enqueueJobs ["g1"])).unfinished = 1 ∧
     (consumerLoop 3 (fun _ _ => .success true) 10 (enqueueJobs ["g1"])).results = ["g1"]) ∧
    (joinSatisfied (consumerLoop 1 (fun _ _ => .engineError) 10 (enqueueJobs ["g1"])) = false ∧
     (consumerLoop 1 (fun _ _ => .engineError) 10 (enqueueJobs ["g1"])).unfinished = 3 ∧
     (consumerLoop 1 (fun _ _ => .engineError) 10 (enqueueJobs ["g1"])).results = []) := by
  refine ⟨⟨rfl, rfl, rfl⟩, ⟨rfl, rfl, rfl⟩⟩

/-! ### Run orchestrator (`AnalysisOrchestrator.run`)

`orchestration/orchestrator.py` lines 81-161.  The body has two phases:
counting games in the input file (lines 85-91), whose `try` catches only
`FileNotFoundError`, and the main processing block (lines 93-158), whose
`except Exception` sets the shutdown event and returns a minimal error
report.  Exceptions are modelled with `Except`; the two phases are passed in
as values, since their internals (file I/O, pool, scheduler) are opaque to
the control flow being verified. -/

/-- Python exceptions relevant to `AnalysisOrchestrator.run`. -/
inductive PyExc where
  | fileNotFound
  | permissionError
  | other (msg : String)
deriving DecidableEq

def pyExcMsg : PyExc → String
  | .fileNotFound => "FileNotFoundError"
  | .permissionError => "PermissionError"
  | .other msg => msg

/-- `chess_analyzer.types.RunReport`, with the result payloads abstracted to
their game ids. -/
structure RunReport where
  resultIds : List String
  processedGameCount : Nat
  userFoundInGames : Bool
  warnings : List String
deriving DecidableEq

/-- What `AnalysisOrchestrator.run` does for its caller: the value returned
(or the exception propagated), and whether `self._shutdown_event` was set. -/
structure OrchOutcome where
  returned : Except PyExc RunReport
  shutdownSet : Bool

/-- `AnalysisOrchestrator.run`: the counting phase's `try` converts only
`FileNotFoundError` into a warning report (without setting the shutdown
event); any other exception there propagates.  The main phase's
`except Exception` sets the shutdown event and returns a minimal error
report with one `"Fatal error: ..."` warning. -/
def orchestratorRun (countPhase : Except PyExc Nat)
    (mainPhase : Nat → Except PyExc RunReport) : OrchOutcome :=
  match countPhase with
  | .error .fileNotFound =>
      { returned := .ok { resultIds := [], processedGameCount := 0, userFoundInGames := false,
                          warnings := ["Input PGN file not found."] },
        shutdownSet := false }
  | .error e => { returned := .error e, shutdownSet := false }
  | .ok totalGames =>
      match mainPhase totalGames with
      | .ok report => { returned := .ok report, shutdownSet := false }
      | .error e =>
          { returned := .ok { resultIds := [], processedGameCount := 0, userFoundInGames := false,
                              warnings := ["Fatal error: " ++ pyExcMsg e] },
            shutdownSet := true }

/-- C3 counterexample: a `PermissionError` raised while opening the input
file to count games (lines 86-88 are guarded only against
`FileNotFoundError`) propagates to the caller instead of being converted
into a `RunReport`. -/
theorem orchestratorRun_propagates_count_exception :
    (orchestratorRun (.error .permissionError)
        (fun _ => .ok { resultIds := [], processedGameCount := 0,
                        userFoundInGames := false, warnings := [] })).returned
      = .error .permissionError := rfl

/-- C3 (amended): an exception in the main processing block is converted
into a set shutdown event plus a minimal error report with a warning, and a
missing input file is converted into a warning report without setting the
shutdown event; only those two conversions exist, and any other exception in
the counting phase propagates. -/
theorem orchestratorRun_error_conversion (countPhase : Except PyExc Nat)
    (mainPhase : Nat → Except PyExc RunReport) :
    (∀ totalGames, countPhase = .ok totalGames →
        ((∃ report, mainPhase totalGames = .ok report ∧
            orchestratorRun countPhase mainPhase = ⟨.ok report, false⟩) ∨
         (∃ e, mainPhase totalGames = .error e ∧
            orchestratorRun countPhase mainPhase =
              ⟨.ok { resultIds := [], processedGameCount := 0, userFoundInGames := false,
                     warnings := ["Fatal error: " ++ pyExcMsg e] }, true⟩))) ∧
    (countPhase = .error .fileNotFound →
        orchestratorRun countPhase mainPhase =
          ⟨.ok { resultIds := [], processedGameCount := 0, userFoundInGames := false,
                 warnings := ["Input PGN file not found."] }, false⟩) ∧
    (∀ e, countPhase = .error e → e ≠ .fileNotFound →
        orchestratorRun countPhase mainPhase = ⟨.error e, false⟩) := by
  refine ⟨?_, ?_, ?_⟩
  · intro totalGames hc
    subst hc
    cases hm : mainPhase totalGames with
    | ok report =>
        exact Or.inl ⟨report, rfl, by simp [orchestratorRun, hm]⟩
    | error e =>
        exact Or.inr ⟨e, rfl, by simp [orchestratorRun, hm]⟩
  · intro hc
    subst hc
    rfl
  · intro e hc hne
    subst hc
    cases e with
    | fileNotFound => exact absurd rfl hne
    | permissionError => rfl
    | other msg => rfl

/-- Witness for `orchestratorRun_error_conversion` at a concrete input:
the main phase raising an exception yields the fatal-error report with the
shutdown event set. -/
theorem orchestratorRun_error_conversion_witness :
    (∃ e, (fun (_ : Nat) => (.error (.other "boom") : Except PyExc RunReport)) 0 = .error e ∧
       orchestratorRun (.ok 0) (fun _ => .error (.other "boom")) =
         ⟨.ok { resultIds := [], processedGameCount := 0, userFoundInGames := false,
                warnings := ["Fatal error: " ++ pyExcMsg e] }, true⟩) := by
  rcases (orchestratorRun_error_conversion (.ok 0) (fun _ => .error (.other "boom"))).1 0 rfl with
    ⟨report, hr, _⟩ | h
  · cases hr
  · exact h

/-! ### Engine pool (`services/engine_pool.py`)

Engine handles are opaque; they are modelled by a type parameter `E` with
decidable equality (Python object identity).  `_create_new_instance` returns
`None` on failure, so a creation attempt is an `Option E`. -/

/-- `EnginePool.__aenter__` (lines 69-98): gather the `pool_size` concurrent
`_create_new_instance` results, keep the successful ones (in order) as
`self._instances` (each also `put_nowait` into the availability queue), and
raise `RuntimeError` if none succeeded. -/
def enginePoolOpen {E : Type} (creationResults : List (Option E)) : Except String (List E) :=
  let instances := creationResults.filterMap id
  if instances.isEmpty then
    .error "Could not initialize any engine instances for the pool. Aborting."
  else .ok instances

/-- C5: `__aenter__` raises if and only if every one of the attempted
factory creations failed; otherwise the pool opens holding exactly the
successfully created handles (there is at least one, concurrency reduced
accordingly). -/
theorem enginePoolOpen_partial_failure {E : Type} (creationResults : List (Option E)) :
    ((∃ msg, enginePoolOpen creationResults = .error msg) ↔
       ∀ r ∈ creationResults, r = none) ∧
    (∀ instances, enginePoolOpen creationResults = .ok instances →
       instances = creationResults.filterMap id ∧ instances ≠ []) := by
  have hiff : creationResults.filterMap id = [] ↔ ∀ r ∈ creationResults, r = none := by
    rw [List.filterMap_eq_nil_iff]
    constructor
    · intro h r hr
      exact h r hr
    · intro h r hr
      exact h r hr
  by_cases h : creationResults.filterMap id = []
  · constructor
    · constructor
      · intro _
        exact hiff.mp h
      · intro _
        exact ⟨"Could not initialize any engine instances for the pool. Aborting.",
               by simp [enginePoolOpen, h]⟩
    · intro instances hok
      simp [enginePoolOpen, h] at hok
  · have hne : (creationResults.filterMap id).isEmpty = false := by
      cases hcr : creationResults.filterMap id with
      | nil => exact absurd hcr h
      | cons a l => rfl
    constructor
    · constructor
      · rintro ⟨msg, hmsg⟩
        simp [enginePoolOpen, hne] at hmsg
      · intro hall
        exact absurd (hiff.mpr hall) h
    · intro instances hok
      simp [enginePoolOpen, hne] at hok
      exact ⟨hok.symm, hok ▸ h⟩

/-- Witness for `enginePoolOpen_partial_failure`: with 3 of 5 creations
succeeding, the pool opens holding exactly those 3 handles. -/
theorem enginePoolOpen_partial_failure_witness :
    ([0, 2, 4] : List Nat) =
        ([some 0, none, some 2, none, some 4] : List (Option Nat)).filterMap id ∧
      ([0, 2, 4] : List Nat) ≠ [] :=
  (enginePoolOpen_partial_failure [some 0, none, some 2, none, some 4]).2 [0, 2, 4] rfl

/-- Mutable state of an `EnginePool`: `self._instances` (the owned set, an
ordered Python list) and the availability queue `self._pool`'s buffered
items. -/
structure EnginePoolState (E : Type) where
  instances : List E
  pool : List E
deriving DecidableEq

/-- `EnginePool.release` (lines 138-147): `put_nowait` the engine back into
the availability queue, unless the pool is closed (then drop it). -/
def releaseEngine {E : Type} (isClosed : Bool) (st : EnginePoolState E) (e : E) :
    EnginePoolState E :=
  if isClosed then st else { st with pool := st.pool ++ [e] }

/-- `EnginePool.retire_and_replace` (lines 149-180): best-effort close of the
failed engine (no pool state effect), then under the lock:
`self._instances.remove(failed_engine)` — which removes the first occurrence
or, when the engine is absent, raises `ValueError`, caught and turned into an
early return — then attempt to create a replacement (`replacement` is the
`_create_new_instance` result); on success append it to the owned set and
release it into the availability queue. -/
def retireAndReplace {E : Type} [DecidableEq E] (isClosed : Bool) (st : EnginePoolState E)
    (failedEngine : E) (replacement : Option E) : EnginePoolState E :=
  if failedEngine ∈ st.instances then
    let afterRemove : EnginePoolState E := { st with instances := st.instances.erase failedEngine }
    match replacement with
    | some newEngine =>
        releaseEngine isClosed
          { afterRemove with instances := afterRemove.instances ++ [newEngine] } newEngine
    | none => afterRemove
  else st

/-- `retire_and_replace` on a handle absent from the owned set is a silent
no-op: `list.remove` raises `ValueError`, which is caught and returns. -/
theorem retireAndReplace_not_mem {E : Type} [DecidableEq E]
    (isClosed : Bool) (st : EnginePoolState E) (failedEngine : E) (replacement : Option E)
    (h : failedEngine ∉ st.instances) :
    retireAndReplace isClosed st failedEngine replacement = st := by
  unfold retireAndReplace
  rw [if_neg h]

/-- C6: retiring a handle is idempotent.  If the pool owns the failed handle
once and the replacement is a fresh handle, then after the first
`retire_and_replace` the handle is no longer owned, and a second call for the
same handle (any replacement, any closed flag) returns the state unchanged —
a silent no-op that neither raises nor shrinks the owned set again. -/
theorem retireAndReplace_idempotent {E : Type} [DecidableEq E]
    (isClosed isClosed2 : Bool) (st : EnginePoolState E) (failedEngine : E)
    (replacement replacement2 : Option E)
    (hcount : st.instances.count failedEngine = 1)
    (hfresh : replacement ≠ some failedEngine) :
    (retireAndReplace isClosed st failedEngine replacement).instances.count failedEngine = 0 ∧
    retireAndReplace isClosed2 (retireAndReplace isClosed st failedEngine replacement)
        failedEngine replacement2
      = retireAndReplace isClosed st failedEngine replacement := by
  have hmem : failedEngine ∈ st.instances := by
    apply List.count_pos_iff.mp
    omega
  have herase : (st.instances.erase failedEngine).count failedEngine = 0 := by
    rw [List.count_erase_self]
    omega
  have hcount0 : (retireAndReplace isClosed st failedEngine replacement).instances.count
      failedEngine = 0 := by
    unfold retireAndReplace
    rw [if_pos hmem]
    cases replacement with
    | none => exact herase
    | some newEngine =>
        have hne : newEngine ≠ failedEngine := by
          intro heq
          exact hfresh (by rw [heq])
        cases isClosed with
        | true => simp [releaseEngine, List.count_append, herase, Ne.symm hne]
        | false => simp [releaseEngine, List.count_append, herase, Ne.symm hne]
  refine ⟨hcount0, ?_⟩
  have hnotmem : failedEngine ∉
      (retireAndReplace isClosed st failedEngine replacement).instances := by
    intro hmem2
    have := List.count_pos_iff.mpr hmem2
    omega
  exact retireAndReplace_not_mem isClosed2 _ failedEngine replacement2 hnotmem

/-- Witness for `retireAndReplace_idempotent`: pool owning handles `1, 2`
with `2` available, handle `1` retired and replaced by `3`; the second retire
of `1` leaves the state untouched. -/
theorem retireAndReplace_idempotent_witness :
    (retireAndReplace false (⟨[1, 2], [2]⟩ : EnginePoolState Nat) 1 (some 3)).instances.count 1
        = 0 ∧
    retireAndReplace true (retireAndReplace false (⟨[1, 2], [2]⟩ : EnginePoolState Nat) 1 (some 3))
        1 none
      = retireAndReplace false (⟨[1, 2], [2]⟩ : EnginePoolState Nat) 1 (some 3) :=
  retireAndReplace_idempotent false true ⟨[1, 2], [2]⟩ 1 (some 3) none (by decide) (by decide)

/-! ### Pool lending discipline (`EnginePool.acquire` / `EnginePool.release`)

`acquire` is `await self._pool.get()`: it suspends while the availability
queue is empty and otherwise hands the caller the queue's head (FIFO).
`release(e)` is `self._pool.put_nowait(e)`, called by
`GameProcessorPool._process_one_game_wrapper`'s `finally` with exactly the
handle that caller acquired, so a release always returns a currently-lent
handle.  `held` is the ghost multiset of handles lent but not yet returned.
An operation that cannot fire (acquire on an empty queue blocks; release of a
handle nobody holds does not occur under the pool contract) yields `none`. -/

/-- One pool client operation. -/
inductive PoolOp (E : Type) where
  | acquire
  | release (e : E)

/-- Availability queue contents plus the ghost multiset of lent handles. -/
structure LendingState (E : Type) where
  avail : List E
  held : List E
deriving DecidableEq

/-- One step of the lending protocol. -/
def lendStep {E : Type} [DecidableEq E] (st : LendingState E) :
    PoolOp E → Option (LendingState E)
  | .acquire =>
      match st.avail with
      | [] => none
      | e :: rest => some { avail := rest, held := st.held ++ [e] }
  | .release e =>
      if e ∈ st.held then some { avail := st.avail ++ [e], held := st.held.erase e }
      else none

/-- Run a trace of operations from a state; `none` if some step cannot fire. -/
def lendRun {E : Type} [DecidableEq E] : List (PoolOp E) → LendingState E → Option (LendingState E)
  | [], st => some st
  | op :: ops, st =>
      match lendStep st op with
      | none => none
      | some s => lendRun ops s

/-- Each step preserves the combined multiset of available and lent handles. -/
theorem lendStep_perm {E : Type} [DecidableEq E] (st st' : LendingState E) (op : PoolOp E)
    (h : lendStep st op = some st') :
    (st'.avail ++ st'.held).Perm (st.avail ++ st.held) := by
  cases op with
  | acquire =>
      cases hav : st.avail with
      | nil =>
          rw [lendStep, hav] at h
          cases h
      | cons e rest =>
          rw [lendStep, hav] at h
          cases h
          have hassoc : rest ++ (st.held ++ [e]) = (rest ++ st.held) ++ [e] :=
            (List.append_assoc _ _ _).symm
          rw [hassoc]
          exact List.perm_append_singleton e (rest ++ st.held)
  | release e =>
      rw [lendStep] at h
      by_cases hmem : e ∈ st.held
      · rw [if_pos hmem] at h
        cases h
        rw [List.append_assoc]
        exact List.Perm.append_left st.avail (List.perm_cons_erase hmem).symm
      · rw [if_neg hmem] at h
        cases h

/-- A whole trace preserves the combined multiset of handles. -/
theorem lendRun_perm {E : Type} [DecidableEq E] (ops : List (PoolOp E))
    (st st' : LendingState E) (h : lendRun ops st = some st') :
    (st'.avail ++ st'.held).Perm (st.avail ++ st.held) := by
  induction ops generalizing st with
  | nil =>
      rw [lendRun] at h
      cases h
      exact List.Perm.refl _
  | cons op rest ih =>
      rw [lendRun] at h
      cases hstep : lendStep st op with
      | none =>
          rw [hstep] at h
          cases h
      | some s =>
          rw [hstep] at h
          exact (ih s h).trans (lendStep_perm st s op hstep)

/-- C7: pool exclusivity.  Starting from a pool of `N` distinct handles all
available and none lent, after any trace of acquire/release operations that
respects the lending protocol, at most `N` handles are simultaneously
un-released and no handle is held by two acquirers at once (the lent
multiset has no duplicates). -/
theorem enginePool_lending_exclusive {E : Type} [DecidableEq E]
    (initialHandles : List E) (hnodup : initialHandles.Nodup)
    (ops : List (PoolOp E)) (st' : LendingState E)
    (h : lendRun ops { avail := initialHandles, held := [] } = some st') :
    st'.held.length ≤ initialHandles.length ∧ st'.held.Nodup := by
  have hperm := lendRun_perm ops _ st' h
  simp only [List.append_nil] at hperm
  constructor
  · have hlen := hperm.length_eq
    rw [List.length_append] at hlen
    omega
  · exact ((hperm.nodup_iff).mpr hnodup).of_append_right

/-- Witness for `enginePool_lending_exclusive`: two handles, a trace that
acquires both, returns one and re-acquires it. -/
theorem enginePool_lending_exclusive_witness :
    (([20, 10] : List Nat).length ≤ ([10, 20] : List Nat).length ∧
      ([20, 10] : List Nat).Nodup) :=
  enginePool_lending_exclusive [10, 20] (by decide)
    [PoolOp.acquire, PoolOp.acquire, PoolOp.release 10, PoolOp.acquire]
    { avail := [], held := [20, 10] } (by decide)

/-! ### Pipeline driver (`run_game_processing_pipeline`)

`orchestration/pipeline_stages.py` lines 373-390: a fold over the fixed
ordered stage list that, before each stage, polls the shutdown event; when
the event is observed set it nulls `summary` and `annotated_game` on the
current context and breaks.  Stages are opaque context transformers; stage
exceptions propagate to the scheduler and are out of scope here.  The
shutdown event can be set at any moment by another task, so its observed
value is a function of the check's index. -/

/-- `chess_analyzer.types.GameContext`, restricted to the fields the driver
touches: the two final-result fields plus a stand-in for the rest of the
mutable state that stages accumulate. -/
structure GameContext where
  summary : Option String
  annotatedGame : Option String
  accumulated : List String
deriving DecidableEq

/-- The abort branch of the driver: `current_context.summary = None;
current_context.annotated_game = None`. -/
def markAborted (context : GameContext) : GameContext :=
  { context with summary := none, annotatedGame := none }

/-- `run_game_processing_pipeline`, with `shutdownAt i` the value of
`shutdown_event.is_set()` observed by the check before the `i`-th stage. -/
def runGameProcessingPipeline (shutdownAt : Nat → Bool) :
    List (GameContext → GameContext) → Nat → GameContext → GameContext
  | [], _, context => context
  | stage :: rest, i, context =>
      if shutdownAt i then markAborted context
      else runGameProcessingPipeline shutdownAt rest (i + 1) (stage context)

theorem runGameProcessingPipeline_shift (shutdownAt : Nat → Bool)
    (stages : List (GameContext → GameContext)) (base : Nat) (context : GameContext)
    (i : Nat) (hi : i < stages.length)
    (hbefore : ∀ j, j < i → shutdownAt (base + j) = false)
    (hset : shutdownAt (base + i) = true) :
    runGameProcessingPipeline shutdownAt stages base context
      = markAborted ((stages.take i).foldl (fun c stage => stage c) context) := by
  induction i generalizing stages base context with
  | zero =>
      cases stages with
      | nil => simp at hi
      | cons stage rest =>
          rw [runGameProcessingPipeline]
          rw [Nat.add_zero] at hset
          rw [if_pos hset]
          rfl
  | succ i ih =>
      cases stages with
      | nil => simp at hi
      | cons stage rest =>
          rw [runGameProcessingPipeline]
          have h0 : shutdownAt (base + 0) = false := hbefore 0 (Nat.succ_pos i)
          rw [Nat.add_zero] at h0
          rw [if_neg (by rw [h0]; exact Bool.false_ne_true)]
          have hlen : i < rest.length := Nat.lt_of_succ_lt_succ hi
          have hb : ∀ j, j < i → shutdownAt (base + 1 + j) = false := by
            intro j hj
            have := hbefore (j + 1) (Nat.succ_lt_succ hj)
            rw [show base + (j + 1) = base + 1 + j by omega] at this
            exact this
          have hs : shutdownAt (base + 1 + i) = true := by
            rw [show base + 1 + i = base + (i + 1) by omega]
            exact hset
          rw [ih rest (base + 1) (stage context) hlen hb hs]
          rfl

theorem runGameProcessingPipeline_no_shutdown (shutdownAt : Nat → Bool)
    (hnever : ∀ j, shutdownAt j = false) :
    ∀ (stages : List (GameContext → GameContext)) (base : Nat) (context : GameContext),
    runGameProcessingPipeline shutdownAt stages base context
      = stages.foldl (fun c stage => stage c) context := by
  intro stages
  induction stages with
  | nil =>
      intro base context
      rfl
  | cons stage rest ih =>
      intro base context
      rw [runGameProcessingPipeline,
          if_neg (by rw [hnever base]; exact Bool.false_ne_true), List.foldl_cons]
      exact ih (base + 1) (stage context)

/-- C8: pipeline stages run strictly in sequence with the cancellation flag
polled before each stage.  If the flag is never observed set, the result is
exactly the in-order fold of all stages; if the flag is first observed set
before stage `i` (with `i` a valid stage index), the driver executes exactly
the first `i` stages and returns their in-order fold with both final-result
fields (`summary`, `annotated_game`) cleared, so the aborted context cannot
be mistaken for a successful one. -/
theorem runGameProcessingPipeline_cancellation (shutdownAt : Nat → Bool)
    (stages : List (GameContext → GameContext)) (context : GameContext) :
    ((∀ j, shutdownAt j = false) →
        runGameProcessingPipeline shutdownAt stages 0 context
          = stages.foldl (fun c stage => stage c) context) ∧
    (∀ i, i < stages.length → (∀ j, j < i → shutdownAt j = false) → shutdownAt i = true →
        runGameProcessingPipeline shutdownAt stages 0 context
          = markAborted ((stages.take i).foldl (fun c stage => stage c) context)) := by
  constructor
  · intro hnever
    exact runGameProcessingPipeline_no_shutdown shutdownAt hnever stages 0 context
  · intro i hi hbefore hset
    have hb : ∀ j, j < i → shutdownAt (0 + j) = false := by
      intro j hj
      rw [Nat.zero_add]
      exact hbefore j hj
    have hs : shutdownAt (0 + i) = true := by
      rw [Nat.zero_add]
      exact hset
    exact runGameProcessingPipeline_shift shutdownAt stages 0 context i hi hb hs

/-- Concrete three-stage pipeline used by the cancellation witness. -/
def witnessStages : List (GameContext → GameContext) :=
  [fun c => { c with accumulated := c.accumulated ++ ["stage0"] },
   fun c => { c with summary := some "done" },
   fun c => { c with annotatedGame := some "pgn" }]

/-- Witness for `runGameProcessingPipeline_cancellation`: with shutdown first
observed before stage 1, only stage 0 runs and the result fields are
cleared. -/
theorem runGameProcessingPipeline_cancellation_witness :
    runGameProcessingPipeline (fun j => j == 1) witnessStages 0 ⟨none, none, []⟩
      = ⟨none, none, ["stage0"]⟩ := by
  have h := (runGameProcessingPipeline_cancellation (fun j => j == 1) witnessStages
      ⟨none, none, []⟩).2 1 (by simp [witnessStages])
      (by intro j hj
          have hj0 : j = 0 := Nat.lt_one_iff.mp hj
          subst hj0
          rfl)
      rfl
  rw [h]
  rfl

/-! ### Background writer task (`AnalysisOrchestrator._pgn_writer_task`)

`orchestrator.py` lines 54-72.  The loop structure: an inner
`try/finally` around the sentinel check and the export call guarantees
`queue.task_done()` after every successful `queue.get()`; `TimeoutError`
from the poll is caught and re-loops (it touches neither the queue contents
nor the counters, so it is omitted); any export exception propagates past
the inner `except TimeoutError` to the outer `except Exception`, which logs
and ends the task.  The model runs the task to quiescence against the
queue's buffered items. -/

/-- Observable outcome of running the writer task against the queue's
buffered items (`none` is the stop sentinel): how many items it dequeued,
how many `task_done` calls it made, which games it exported, the items left
in the queue when it stopped, and whether it stopped because an export
raised. -/
structure WriterOutcome where
  dequeued : Nat
  taskDones : Nat
  exported : List String
  remaining : List (Option String)
  exitedByError : Bool
deriving DecidableEq

/-- `_pgn_writer_task` over the buffered queue items, where `exportOk g`
says whether `service.export_annotated_game(g, path)` returns normally.
On the sentinel: `task_done` (the `finally`) then break.  On an export
exception: `task_done` (the `finally`), then the exception ends the loop
via the outer `except Exception`.  On an empty buffer the task is still
polling (it has dequeued nothing further). -/
def pgnWriterTask (exportOk : String → Bool) : List (Option String) → WriterOutcome
  | [] => { dequeued := 0, taskDones := 0, exported := [], remaining := [], exitedByError := false }
  | none :: rest =>
      { dequeued := 1, taskDones := 1, exported := [], remaining := rest, exitedByError := false }
  | some g :: rest =>
      if exportOk g then
        let rec_ := pgnWriterTask exportOk rest
        { rec_ with
            dequeued := rec_.dequeued + 1, taskDones := rec_.taskDones + 1,
            exported := g :: rec_.exported }
      else
        { dequeued := 1, taskDones := 1, exported := [], remaining := rest,
          exitedByError := true }

/-- C10 counterexample: the per-item `task_done` accounting alone does not
keep the orchestrator's drain from waiting on a writer-side failure.  With
two games buffered and the first export raising, the writer calls
`task_done` once and its loop ends, leaving the second item buffered: only
1 of the 2 queue puts is ever matched, so `self._pgn_write_queue.join()`
(orchestrator.py line 143) waits forever. -/
theorem pgnWriterTask_drain_stuck :
    (pgnWriterTask (fun g => !(g == "bad")) [some "bad", some "g2"]).exitedByError = true ∧
    (pgnWriterTask (fun g => !(g == "bad")) [some "bad", some "g2"]).taskDones = 1 ∧
    (pgnWriterTask (fun g => !(g == "bad")) [some "bad", some "g2"]).remaining = [some "g2"] ∧
    (pgnWriterTask (fun g => !(g == "bad")) [some "bad", some "g2"]).taskDones < 2 := by
  refine ⟨rfl, rfl, rfl, ?_⟩
  decide

/-- C10 (amended): every item the writer task successfully dequeues —
including the stop sentinel and items whose export raises — is matched by
exactly one `task_done` call, so the drain never waits on an item the
writer has dequeued; but an export exception ends the writer loop, so
items never dequeued can still leave the drain waiting. -/
theorem pgnWriterTask_taskDone_per_dequeue (exportOk : String → Bool)
    (buffered : List (Option String)) :
    (pgnWriterTask exportOk buffered).taskDones = (pgnWriterTask exportOk buffered).dequeued ∧
    (pgnWriterTask exportOk buffered).dequeued + (pgnWriterTask exportOk buffered).remaining.length
      = buffered.length := by
  induction buffered with
  | nil => exact ⟨rfl, rfl⟩
  | cons item rest ih =>
      have h1 := ih.1
      have h2 := ih.2
      cases item with
      | none =>
          refine ⟨rfl, ?_⟩
          simp only [pgnWriterTask, List.length_cons]
          omega
      | some g =>
          cases hok : exportOk g with
          | true =>
              refine ⟨?_, ?_⟩ <;>
                simp only [pgnWriterTask, hok, if_true, List.length_cons] <;> omega
          | false =>
              refine ⟨?_, ?_⟩ <;>
                simp only [pgnWriterTask, hok, Bool.false_eq_true, if_false,
                  List.length_cons] <;> omega

/-! ### Cache-aside provider (`services/analysis_provider.py`)

`AnalysisProvider.get_analyses_for_fens` (lines 42-105).  The cache
collaborator is modelled from its `CacheService` contract: a key/value map
whose batch get returns exactly the requested keys that are present, and
whose batch store upserts.  The engine collaborator's
`analyze_fens_batch` is an arbitrary function from the requested FEN list
to a reply map (modelled as the association list of its items), so replies
that omit requested FENs or contain extra FENs are representable. -/

/-- `chess_analyzer.config.settings.AnalysisSettings`, the fields used. -/
structure AnalysisSettings where
  depth : Nat
  multipv : Nat
deriving DecidableEq

/-- `chess_analyzer.types.CacheKey`. -/
structure CacheKey where
  fen : String
  depth : Nat
  multipv : Nat
  engineId : String
deriving DecidableEq

/-- `chess_analyzer.types.AnalysisResult`, engine lines kept abstract. -/
structure AnalysisResult where
  topEngineLines : List String
deriving DecidableEq

/-- The `CacheKey(fen=..., depth=..., multipv=..., engine_id=...)` built per
FEN at lines 64-72. -/
def mkCacheKey (settings : AnalysisSettings) (engineId : String) (fen : String) : CacheKey :=
  { fen := fen, depth := settings.depth, multipv := settings.multipv, engineId := engineId }

/-- `cache.get_cached_analyses_batch(keys)` per the `CacheService`
contract: the sub-dict of the cache at the requested keys; missing keys are
simply absent. -/
def getCachedAnalysesBatch (cache : List (CacheKey × AnalysisResult)) (keys : List CacheKey) :
    List (CacheKey × AnalysisResult) :=
  pydict (keys.filterMap (fun k => (alookup cache k).map (fun r => (k, r))))

/-- Everything observable about one `get_analyses_for_fens` call: the
returned FEN-keyed dict, the FEN list passed to
`engine.analyze_fens_batch` (`none` when the engine was never invoked),
the dict passed to `cache.store_analyses_batch`, and the cache contents
after the call. -/
structure ProviderOutcome where
  result : List (String × AnalysisResult)
  engineCalledWith : Option (List String)
  stored : List (CacheKey × AnalysisResult)
  cacheAfter : List (CacheKey × AnalysisResult)

/-- `all_cache_keys` (lines 64-72): one key per requested FEN. -/
def providerAllCacheKeys (settings : AnalysisSettings) (engineId : String)
    (fens : List String) : List CacheKey :=
  fens.map (mkCacheKey settings engineId)

/-- `missed_keys` (line 79): the keys with `key not in cached_results`. -/
def providerMissedKeys (settings : AnalysisSettings) (engineId : String)
    (cache : List (CacheKey × AnalysisResult)) (fens : List String) : List CacheKey :=
  (providerAllCacheKeys settings engineId fens).filter
    (fun k => (alookup (getCachedAnalysesBatch cache
        (providerAllCacheKeys settings engineId fens)) k).isNone)

/-- `results_to_store` (lines 91-95): iterate the engine reply's items,
keeping exactly the entries whose FEN maps back to a missed key via
`key_map`. -/
def providerResultsToStore (keyMap : List (String × CacheKey))
    (reply : List (String × List String)) : List (CacheKey × AnalysisResult) :=
  reply.foldl
    (fun acc p =>
      match alookup keyMap p.1 with
      | some key => dinsert acc key { topEngineLines := p.2 }
      | none => acc) []

/-- `AnalysisProvider.get_analyses_for_fens`, straight-line from the source:
empty input short-circuits; build one key per FEN; batch-read the cache;
keys absent from the reply are the misses; with no misses return the cache
hits keyed by FEN without touching the engine; otherwise call the engine
with exactly the missed FENs, keep only reply entries whose FEN maps back to
a missed key (`key_map`), store those (if any, upserting into the cache),
merge hits with fresh results and return keyed by FEN. -/
def getAnalysesForFens (settings : AnalysisSettings) (engineId : String)
    (engineReply : List String → List (String × List String))
    (cache : List (CacheKey × AnalysisResult)) (fens : List String) : ProviderOutcome :=
  if fens.isEmpty then
    { result := [], engineCalledWith := none, stored := [], cacheAfter := cache }
  else
    let cachedResults := getCachedAnalysesBatch cache
      (providerAllCacheKeys settings engineId fens)
    let missedKeys := providerMissedKeys settings engineId cache fens
    if missedKeys.isEmpty then
      { result := pydict (cachedResults.map (fun p => (p.1.fen, p.2))),
        engineCalledWith := none, stored := [], cacheAfter := cache }
    else
      let missedFens := missedKeys.map CacheKey.fen
      let keyMap := pydict (missedKeys.map (fun k => (k.fen, k)))
      let resultsToStore := providerResultsToStore keyMap (engineReply missedFens)
      let cacheAfter :=
        if resultsToStore.isEmpty then cache
        else resultsToStore.foldl (fun c p => dinsert c p.1 p.2) cache
      let finalResultsByKey := resultsToStore.foldl (fun m p => dinsert m p.1 p.2) cachedResults
      { result := pydict (finalResultsByKey.map (fun p => (p.1.fen, p.2))),
        engineCalledWith := some missedFens,
        stored := resultsToStore,
        cacheAfter := cacheAfter }

theorem isNone_eq_not_isSome {α : Type} (x : Option α) : x.isNone = !x.isSome := by
  cases x with
  | none => rfl
  | some a => rfl

/-- Membership in a `pydict` implies membership in its input pairs. -/
theorem mem_pydict {α β : Type} [DecidableEq α] (l : List (α × β)) (x : α × β)
    (h : x ∈ pydict l) : x ∈ l := by
  rcases mem_foldl_dinsert l [] x h with h1 | h1
  · exact h1
  · cases h1

/-- The batch cache read holds exactly the requested keys present in the
cache. -/
theorem alookup_getCachedAnalysesBatch (cache : List (CacheKey × AnalysisResult))
    (keys : List CacheKey) (k : CacheKey) :
    (alookup (getCachedAnalysesBatch cache keys) k).isSome ↔
      k ∈ keys ∧ (alookup cache k).isSome := by
  rw [getCachedAnalysesBatch, alookup_pydict_isSome]
  constructor
  · intro h
    rcases List.mem_map.mp h with ⟨p, hp, hfst⟩
    rcases List.mem_filterMap.mp hp with ⟨k', hk', hf⟩
    rcases Option.map_eq_some'.mp hf with ⟨r, hr, hpair⟩
    have hk'k : k' = k := by
      rw [← hfst, ← hpair]
    subst hk'k
    exact ⟨hk', by rw [hr]; rfl⟩
  · rintro ⟨hk, hs⟩
    rcases Option.isSome_iff_exists.mp hs with ⟨r, hr⟩
    exact List.mem_map.mpr ⟨(k, r), List.mem_filterMap.mpr ⟨k, hk, by rw [hr]; rfl⟩, rfl⟩

/-- Every pair of the batch cache read is a cache binding at a requested
key. -/
theorem mem_getCachedAnalysesBatch (cache : List (CacheKey × AnalysisResult))
    (keys : List CacheKey) (p : CacheKey × AnalysisResult)
    (h : p ∈ getCachedAnalysesBatch cache keys) : p.1 ∈ keys := by
  rcases List.mem_filterMap.mp (mem_pydict _ _ h) with ⟨k', hk', hf⟩
  rcases Option.map_eq_some'.mp hf with ⟨r, _, hpair⟩
  rw [← hpair]
  exact hk'

/-- For a requested key, absence from the batch read is absence from the
cache. -/
theorem batch_isNone_iff (settings : AnalysisSettings) (engineId : String)
    (cache : List (CacheKey × AnalysisResult)) (fens : List String) (k : CacheKey)
    (hk : k ∈ providerAllCacheKeys settings engineId fens) :
    (alookup (getCachedAnalysesBatch cache (providerAllCacheKeys settings engineId fens))
        k).isNone
      = (alookup cache k).isNone := by
  rw [isNone_eq_not_isSome, isNone_eq_not_isSome]
  congr 1
  cases hs : (alookup cache k).isSome with
  | true => exact (alookup_getCachedAnalysesBatch cache _ k).mpr ⟨hk, hs⟩
  | false =>
      cases hb : (alookup (getCachedAnalysesBatch cache
          (providerAllCacheKeys settings engineId fens)) k).isSome with
      | false => rfl
      | true =>
          have := ((alookup_getCachedAnalysesBatch cache _ k).mp hb).2
          rw [hs] at this
          exact absurd this (by decide)

/-- A missed key is a requested key absent from the cache, and conversely. -/
theorem mem_providerMissedKeys (settings : AnalysisSettings) (engineId : String)
    (cache : List (CacheKey × AnalysisResult)) (fens : List String) (k : CacheKey) :
    k ∈ providerMissedKeys settings engineId cache fens ↔
      k ∈ providerAllCacheKeys settings engineId fens ∧ (alookup cache k).isNone = true := by
  rw [providerMissedKeys, List.mem_filter]
  constructor
  · rintro ⟨hk, hnone⟩
    refine ⟨hk, ?_⟩
    rw [← batch_isNone_iff settings engineId cache fens k hk]
    exact hnone
  · rintro ⟨hk, hnone⟩
    refine ⟨hk, ?_⟩
    rw [batch_isNone_iff settings engineId cache fens k hk]
    exact hnone

theorem map_fen_filter (settings : AnalysisSettings) (engineId : String)
    (q : CacheKey → Bool) (fens : List String) :
    ((fens.map (mkCacheKey settings engineId)).filter q).map CacheKey.fen
      = fens.filter (fun f => q (mkCacheKey settings engineId f)) := by
  induction fens with
  | nil => rfl
  | cons f rest ih =>
      rw [List.map_cons, List.filter_cons, List.filter_cons]
      by_cases hq : q (mkCacheKey settings engineId f) = true
      · rw [if_pos hq, if_pos hq, List.map_cons, ih]
        rfl
      · rw [if_neg hq, if_neg hq, ih]

/-- The missed keys, projected to FENs, are the requested FENs whose key is
absent from the cache. -/
theorem providerMissedKeys_map_fen (settings : AnalysisSettings) (engineId : String)
    (cache : List (CacheKey × AnalysisResult)) (fens : List String) :
    (providerMissedKeys settings engineId cache fens).map CacheKey.fen
      = fens.filter (fun f => (alookup cache (mkCacheKey settings engineId f)).isNone) := by
  have hcongr : providerMissedKeys settings engineId cache fens
      = (providerAllCacheKeys settings engineId fens).filter
          (fun k => (alookup cache k).isNone) := by
    rw [providerMissedKeys]
    exact List.filter_congr (fun k hk => batch_isNone_iff settings engineId cache fens k hk)
  rw [hcongr, providerAllCacheKeys, map_fen_filter]

/-- Requested keys are canonical: determined by their FEN. -/
theorem providerAllCacheKeys_canonical (settings : AnalysisSettings) (engineId : String)
    (fens : List String) (k : CacheKey) (hk : k ∈ providerAllCacheKeys settings engineId fens) :
    k = mkCacheKey settings engineId k.fen ∧ k.fen ∈ fens := by
  rcases List.mem_map.mp hk with ⟨f, hf, hmk⟩
  subst hmk
  exact ⟨rfl, hf⟩

/-- `key_map` sends a FEN to a missed key carrying that FEN. -/
theorem keyMap_sound (missedKeys : List CacheKey) (f : String) (k : CacheKey)
    (h : alookup (pydict (missedKeys.map (fun k => (k.fen, k)))) f = some k) :
    k ∈ missedKeys ∧ k.fen = f := by
  rcases List.mem_map.mp (alookup_pydict_mem _ _ _ h) with ⟨k', hk', hpair⟩
  have h1 : k'.fen = f := congrArg Prod.fst hpair
  have h2 : k' = k := congrArg Prod.snd hpair
  subst h2
  exact ⟨hk', h1⟩

/-- `key_map` is defined on every missed FEN. -/
theorem keyMap_complete (missedKeys : List CacheKey) (f : String)
    (h : f ∈ missedKeys.map CacheKey.fen) :
    (alookup (pydict (missedKeys.map (fun k => (k.fen, k)))) f).isSome := by
  rw [alookup_pydict_isSome, List.map_map]
  exact h

/-- Keys present in `results_to_store` (over any accumulator) are exactly
the accumulator's keys plus the keys some engine-reply entry maps to via
`key_map`. -/
theorem alookup_storeFold_isSome (reply : List (String × List String))
    (keyMap : List (String × CacheKey)) (acc : List (CacheKey × AnalysisResult))
    (k : CacheKey) :
    (alookup (reply.foldl
        (fun acc p =>
          match alookup keyMap p.1 with
          | some key => dinsert acc key { topEngineLines := p.2 }
          | none => acc) acc) k).isSome ↔
      (alookup acc k).isSome ∨ ∃ p ∈ reply, alookup keyMap p.1 = some k := by
  induction reply generalizing acc with
  | nil => simp
  | cons p rest ih =>
      rw [List.foldl_cons]
      cases hk : alookup keyMap p.1 with
      | none =>
          simp only [hk]
          rw [ih]
          simp only [List.mem_cons]
          constructor
          · rintro (h | ⟨q, hq, hqk⟩)
            · exact Or.inl h
            · exact Or.inr ⟨q, Or.inr hq, hqk⟩
          · rintro (h | ⟨q, hq | hq, hqk⟩)
            · exact Or.inl h
            · rw [hq, hk] at hqk
              cases hqk
            · exact Or.inr ⟨q, hq, hqk⟩
      | some key =>
          simp only [hk]
          rw [ih, alookup_dinsert_isSome]
          simp only [List.mem_cons]
          constructor
          · rintro ((hkk | h) | ⟨q, hq, hqk⟩)
            · exact Or.inr ⟨p, Or.inl rfl, by rw [hk, hkk]⟩
            · exact Or.inl h
            · exact Or.inr ⟨q, Or.inr hq, hqk⟩
          · rintro (h | ⟨q, hq | hq, hqk⟩)
            · exact Or.inl (Or.inr h)
            · rw [hq, hk] at hqk
              exact Or.inl (Or.inl (Option.some_inj.mp hqk).symm)
            · exact Or.inr ⟨q, hq, hqk⟩

/-- Every pair of `results_to_store` carries a key some reply entry maps to
via `key_map`. -/
theorem mem_storeFold (reply : List (String × List String))
    (keyMap : List (String × CacheKey)) (acc : List (CacheKey × AnalysisResult))
    (x : CacheKey × AnalysisResult)
    (h : x ∈ reply.foldl
        (fun acc p =>
          match alookup keyMap p.1 with
          | some key => dinsert acc key { topEngineLines := p.2 }
          | none => acc) acc) :
    x ∈ acc ∨ ∃ p ∈ reply, alookup keyMap p.1 = some x.1 := by
  induction reply generalizing acc with
  | nil => exact Or.inl h
  | cons p rest ih =>
      rw [List.foldl_cons] at h
      cases hk : alookup keyMap p.1 with
      | none =>
          rw [hk] at h
          rcases ih _ h with h1 | ⟨q, hq, hqk⟩
          · exact Or.inl h1
          · exact Or.inr ⟨q, List.mem_cons_of_mem _ hq, hqk⟩
      | some key =>
          rw [hk] at h
          rcases ih _ h with h1 | ⟨q, hq, hqk⟩
          · rcases mem_dinsert _ _ _ _ h1 with h2 | h2
            · refine Or.inr ⟨p, List.mem_cons_self _ _, ?_⟩
              rw [hk, h2]
            · exact Or.inl h2
          · exact Or.inr ⟨q, List.mem_cons_of_mem _ hq, hqk⟩

theorem providerResultsToStore_isSome (keyMap : List (String × CacheKey))
    (reply : List (String × List String)) (k : CacheKey) :
    (alookup (providerResultsToStore keyMap reply) k).isSome ↔
      ∃ p ∈ reply, alookup keyMap p.1 = some k := by
  rw [providerResultsToStore, alookup_storeFold_isSome]
  simp [alookup]

/-- No key is missed exactly when every requested key is a cache hit. -/
theorem providerMissedKeys_isEmpty_iff (settings : AnalysisSettings) (engineId : String)
    (cache : List (CacheKey × AnalysisResult)) (fens : List String) :
    (providerMissedKeys settings engineId cache fens).isEmpty = true ↔
      fens.all (fun f => (alookup cache (mkCacheKey settings engineId f)).isSome) = true := by
  rw [List.isEmpty_iff]
  constructor
  · intro h
    rw [List.all_eq_true]
    intro f hf
    cases hx : (alookup cache (mkCacheKey settings engineId f)).isSome with
    | true => rfl
    | false =>
        have hkmem : mkCacheKey settings engineId f ∈
            providerMissedKeys settings engineId cache fens := by
          refine (mem_providerMissedKeys _ _ _ _ _).mpr
            ⟨List.mem_map.mpr ⟨f, hf, rfl⟩, ?_⟩
          rw [isNone_eq_not_isSome, hx]
          rfl
        rw [h] at hkmem
        cases hkmem
  · intro h
    cases hmk : providerMissedKeys settings engineId cache fens with
    | nil => rfl
    | cons k rest =>
        exfalso
        have hkmem : k ∈ providerMissedKeys settings engineId cache fens := by
          rw [hmk]
          exact List.mem_cons_self _ _
        rcases (mem_providerMissedKeys _ _ _ _ _).mp hkmem with ⟨hkall, hknone⟩
        rcases providerAllCacheKeys_canonical settings engineId fens k hkall with
          ⟨hcanon, hfen⟩
        have hs := List.all_eq_true.mp h k.fen hfen
        rw [← hcanon] at hs
        rw [isNone_eq_not_isSome, hs] at hknone
        exact absurd hknone (by decide)

/-- The FEN-keyed output dict holds a FEN exactly when some key of the
merged key-indexed dict carries it. -/
theorem result_pydict_isSome (m : List (CacheKey × AnalysisResult)) (f : String) :
    (alookup (pydict (m.map (fun p => (p.1.fen, p.2)))) f).isSome ↔
      ∃ k, k ∈ m.map Prod.fst ∧ k.fen = f := by
  rw [alookup_pydict_isSome, List.map_map]
  constructor
  · intro h
    rcases List.mem_map.mp h with ⟨p, hp, hpf⟩
    exact ⟨p.1, List.mem_map.mpr ⟨p, hp, rfl⟩, hpf⟩
  · rintro ⟨k, hk, hkf⟩
    rcases List.mem_map.mp hk with ⟨p, hp, hp1⟩
    refine List.mem_map.mpr ⟨p, hp, ?_⟩
    show p.1.fen = f
    rw [hp1, hkf]

/-- When the engine reply covers its requested FENs, `results_to_store`
holds every missed requested key. -/
theorem storeFold_covers_missed (settings : AnalysisSettings) (engineId : String)
    (engineReply : List String → List (String × List String))
    (cache : List (CacheKey × AnalysisResult)) (fens : List String) (f : String)
    (hcover : ∀ q g, g ∈ q → g ∈ (engineReply q).map Prod.fst)
    (hf : f ∈ fens)
    (hnone : (alookup cache (mkCacheKey settings engineId f)).isNone = true) :
    (alookup (providerResultsToStore
        (pydict ((providerMissedKeys settings engineId cache fens).map (fun k => (k.fen, k))))
        (engineReply ((providerMissedKeys settings engineId cache fens).map CacheKey.fen)))
        (mkCacheKey settings engineId f)).isSome := by
  have hkmem : mkCacheKey settings engineId f ∈ providerMissedKeys settings engineId cache fens :=
    (mem_providerMissedKeys _ _ _ _ _).mpr ⟨List.mem_map.mpr ⟨f, hf, rfl⟩, hnone⟩
  have hfmem : f ∈ (providerMissedKeys settings engineId cache fens).map CacheKey.fen :=
    List.mem_map.mpr ⟨_, hkmem, rfl⟩
  have hsome := keyMap_complete (providerMissedKeys settings engineId cache fens) f hfmem
  rcases Option.isSome_iff_exists.mp hsome with ⟨k', hk'⟩
  rcases keyMap_sound _ _ _ hk' with ⟨hk'mem, hk'fen⟩
  have hcanon := (providerAllCacheKeys_canonical settings engineId fens k'
      ((mem_providerMissedKeys _ _ _ _ _).mp hk'mem).1).1
  have hk'eq : k' = mkCacheKey settings engineId f := by
    rw [hcanon, hk'fen]
  rcases List.mem_map.mp (hcover _ f hfmem) with ⟨p, hp, hp1⟩
  rw [providerResultsToStore_isSome]
  refine ⟨p, hp, ?_⟩
  show alookup _ p.1 = _
  rw [hp1, hk', hk'eq]

/-- C4: the cache-aside contract of `get_analyses_for_fens`.  For a
non-empty request over an engine whose batch reply covers every FEN it is
asked about: the returned dict has a result for every requested FEN; the
engine is invoked exactly when some key is missing, and then with exactly
the FENs whose keys were missing; and afterwards the cache contains every
requested key.  In particular, when every key is a cache hit the engine is
never invoked. -/
theorem getAnalyses_cache_aside (settings : AnalysisSettings) (engineId : String)
    (engineReply : List String → List (String × List String))
    (cache : List (CacheKey × AnalysisResult)) (fens : List String)
    (hne : fens ≠ [])
    (hcover : ∀ q g, g ∈ q → g ∈ (engineReply q).map Prod.fst) :
    (∀ f ∈ fens,
        (alookup (getAnalysesForFens settings engineId engineReply cache fens).result
            f).isSome) ∧
    (getAnalysesForFens settings engineId engineReply cache fens).engineCalledWith
      = (if fens.all (fun f => (alookup cache (mkCacheKey settings engineId f)).isSome)
         then none
         else some (fens.filter
            (fun f => (alookup cache (mkCacheKey settings engineId f)).isNone))) ∧
    (∀ f ∈ fens,
        (alookup (getAnalysesForFens settings engineId engineReply cache fens).cacheAfter
            (mkCacheKey settings engineId f)).isSome) := by
  have hfe : fens.isEmpty = false := by
    cases fens with
    | nil => exact absurd rfl hne
    | cons a l => rfl
  by_cases hmiss : (providerMissedKeys settings engineId cache fens).isEmpty = true
  · -- every requested key is a cache hit: the early-return branch
    have hall := (providerMissedKeys_isEmpty_iff settings engineId cache fens).mp hmiss
    have hres : (getAnalysesForFens settings engineId engineReply cache fens).result
        = pydict ((getCachedAnalysesBatch cache
            (providerAllCacheKeys settings engineId fens)).map (fun p => (p.1.fen, p.2))) := by
      simp [getAnalysesForFens, hfe, hmiss]
    have hcall : (getAnalysesForFens settings engineId engineReply cache fens).engineCalledWith
        = none := by
      simp [getAnalysesForFens, hfe, hmiss]
    have hca : (getAnalysesForFens settings engineId engineReply cache fens).cacheAfter
        = cache := by
      simp [getAnalysesForFens, hfe, hmiss]
    refine ⟨?_, ?_, ?_⟩
    · intro f hf
      have hhit := List.all_eq_true.mp hall f hf
      have hbs : (alookup (getCachedAnalysesBatch cache
          (providerAllCacheKeys settings engineId fens))
            (mkCacheKey settings engineId f)).isSome :=
        (alookup_getCachedAnalysesBatch cache _ _).mpr
          ⟨List.mem_map.mpr ⟨f, hf, rfl⟩, hhit⟩
      rw [hres, result_pydict_isSome]
      exact ⟨mkCacheKey settings engineId f,
        (alookup_isSome_iff_mem_keys _ _).mp hbs, rfl⟩
    · rw [hcall, if_pos hall]
    · intro f hf
      rw [hca]
      exact List.all_eq_true.mp hall f hf
  · -- some key is missing: the engine branch
    have hmiss' : (providerMissedKeys settings engineId cache fens).isEmpty = false := by
      cases h : (providerMissedKeys settings engineId cache fens).isEmpty with
      | false => rfl
      | true => exact absurd h hmiss
    have hallf : fens.all
        (fun f => (alookup cache (mkCacheKey settings engineId f)).isSome) = false := by
      cases h : fens.all (fun f => (alookup cache (mkCacheKey settings engineId f)).isSome) with
      | false => rfl
      | true =>
          exact absurd ((providerMissedKeys_isEmpty_iff settings engineId cache fens).mpr h)
            hmiss
    have hres : (getAnalysesForFens settings engineId engineReply cache fens).result
        = pydict (((providerResultsToStore
            (pydict ((providerMissedKeys settings engineId cache fens).map
              (fun k => (k.fen, k))))
            (engineReply ((providerMissedKeys settings engineId cache fens).map
              CacheKey.fen))).foldl (fun m p => dinsert m p.1 p.2)
            (getCachedAnalysesBatch cache (providerAllCacheKeys settings engineId fens))).map
              (fun p => (p.1.fen, p.2))) := by
      simp [getAnalysesForFens, hfe, hmiss']
    have hcall : (getAnalysesForFens settings engineId engineReply cache fens).engineCalledWith
        = some ((providerMissedKeys settings engineId cache fens).map CacheKey.fen) := by
      simp [getAnalysesForFens, hfe, hmiss']
    have hca : (getAnalysesForFens settings engineId engineReply cache fens).cacheAfter
        = (if (providerResultsToStore
            (pydict ((providerMissedKeys settings engineId cache fens).map
              (fun k => (k.fen, k))))
            (engineReply ((providerMissedKeys settings engineId cache fens).map
              CacheKey.fen))).isEmpty then cache
           else (providerResultsToStore
            (pydict ((providerMissedKeys settings engineId cache fens).map
              (fun k => (k.fen, k))))
            (engineReply ((providerMissedKeys settings engineId cache fens).map
              CacheKey.fen))).foldl (fun c p => dinsert c p.1 p.2) cache) := by
      simp [getAnalysesForFens, hfe, hmiss']
    refine ⟨?_, ?_, ?_⟩
    · intro f hf
      rw [hres, result_pydict_isSome]
      refine ⟨mkCacheKey settings engineId f, ?_, rfl⟩
      rw [← alookup_isSome_iff_mem_keys, alookup_foldl_dinsert_isSome]
      cases hx : (alookup cache (mkCacheKey settings engineId f)).isSome with
      | true =>
          exact Or.inl ((alookup_getCachedAnalysesBatch cache _ _).mpr
            ⟨List.mem_map.mpr ⟨f, hf, rfl⟩, hx⟩)
      | false =>
          right
          rw [← alookup_isSome_iff_mem_keys]
          exact storeFold_covers_missed settings engineId engineReply cache fens f hcover hf
            (by rw [isNone_eq_not_isSome, hx]; rfl)
    · rw [hcall, if_neg (by rw [hallf]; exact Bool.false_ne_true)]
      rw [providerMissedKeys_map_fen]
    · intro f hf
      rw [hca]
      cases hx : (alookup cache (mkCacheKey settings engineId f)).isSome with
      | true =>
          by_cases hse : (providerResultsToStore
              (pydict ((providerMissedKeys settings engineId cache fens).map
                (fun k => (k.fen, k))))
              (engineReply ((providerMissedKeys settings engineId cache fens).map
                CacheKey.fen))).isEmpty = true
          · rw [if_pos hse]
            exact hx
          · rw [if_neg hse, alookup_foldl_dinsert_isSome]
            exact Or.inl hx
      | false =>
          have hstore := storeFold_covers_missed settings engineId engineReply cache fens f
            hcover hf (by rw [isNone_eq_not_isSome, hx]; rfl)
          have hse : (providerResultsToStore
              (pydict ((providerMissedKeys settings engineId cache fens).map
                (fun k => (k.fen, k))))
              (engineReply ((providerMissedKeys settings engineId cache fens).map
                CacheKey.fen))).isEmpty = false := by
            cases hl : providerResultsToStore
                (pydict ((providerMissedKeys settings engineId cache fens).map
                  (fun k => (k.fen, k))))
                (engineReply ((providerMissedKeys settings engineId cache fens).map
                  CacheKey.fen)) with
            | nil =>
                exfalso
                rw [hl] at hstore
                simp [alookup] at hstore
            | cons a l => rfl
          rw [if_neg (by rw [hse]; exact Bool.false_ne_true), alookup_foldl_dinsert_isSome]
          right
          rw [← alookup_isSome_iff_mem_keys]
          exact hstore

/-- Concrete analysis settings for the provider witnesses. -/
def witnessSettings : AnalysisSettings := { depth := 12, multipv := 2 }

/-- Concrete cache holding 2 of the 5 requested keys. -/
def witnessCache : List (CacheKey × AnalysisResult) :=
  [(mkCacheKey witnessSettings "stockfish" "f1", { topEngineLines := ["lineA"] }),
   (mkCacheKey witnessSettings "stockfish" "f3", { topEngineLines := ["lineC"] })]

/-- An engine whose batch reply answers exactly the requested FENs. -/
def echoEngineReply : List String → List (String × List String) :=
  fun fens => fens.map (fun f => (f, [f]))

/-- An engine whose batch reply also contains a FEN that was never
requested. -/
def extraEngineReply : List String → List (String × List String) :=
  fun fens => fens.map (fun f => (f, [f])) ++ [("zz", ["x"])]

/-- Witness for `getAnalyses_cache_aside`: 2 of 5 keys cached; the result
covers a missed FEN, the engine is called with exactly the 3 missing FENs,
and the cache afterwards holds a previously missing key. -/
theorem getAnalyses_cache_aside_witness :
    (alookup (getAnalysesForFens witnessSettings "stockfish" echoEngineReply witnessCache
        ["f1", "f2", "f3", "f4", "f5"]).result "f4").isSome = true ∧
    (getAnalysesForFens witnessSettings "stockfish" echoEngineReply witnessCache
        ["f1", "f2", "f3", "f4", "f5"]).engineCalledWith = some ["f2", "f4", "f5"] ∧
    (alookup (getAnalysesForFens witnessSettings "stockfish" echoEngineReply witnessCache
        ["f1", "f2", "f3", "f4", "f5"]).cacheAfter
        (mkCacheKey witnessSettings "stockfish" "f2")).isSome = true := by
  have h := getAnalyses_cache_aside witnessSettings "stockfish" echoEngineReply witnessCache
      ["f1", "f2", "f3", "f4", "f5"] (by decide)
      (fun q g hg => List.mem_map.mpr ⟨(g, [g]), List.mem_map.mpr ⟨g, hg, rfl⟩, rfl⟩)
  refine ⟨h.1 "f4" (by decide), ?_, h.2.2 "f2" (by decide)⟩
  rw [h.2.1]
  decide

/-- C9: the returned dict and the stored batch never leave the requested
positions.  Every FEN with a result in the returned dict is one of the
requested FENs, and every key passed to the cache store is a requested key
that was missing from the cache — so reply entries for positions that were
not missed requested positions (e.g. extra FENs the engine volunteers) are
discarded: neither stored nor returned. -/
theorem getAnalyses_result_keys_subset (settings : AnalysisSettings) (engineId : String)
    (engineReply : List String → List (String × List String))
    (cache : List (CacheKey × AnalysisResult)) (fens : List String) :
    (∀ f, (alookup (getAnalysesForFens settings engineId engineReply cache fens).result
        f).isSome → f ∈ fens) ∧
    (∀ k, (alookup (getAnalysesForFens settings engineId engineReply cache fens).stored
        k).isSome →
      k ∈ fens.map (mkCacheKey settings engineId) ∧ (alookup cache k).isNone = true) := by
  by_cases hfe : fens.isEmpty = true
  · have hres : (getAnalysesForFens settings engineId engineReply cache fens).result = [] := by
      simp [getAnalysesForFens, hfe]
    have hst : (getAnalysesForFens settings engineId engineReply cache fens).stored = [] := by
      simp [getAnalysesForFens, hfe]
    constructor
    · intro f hsome
      rw [hres] at hsome
      simp [alookup] at hsome
    · intro k hsome
      rw [hst] at hsome
      simp [alookup] at hsome
  · have hfe' : fens.isEmpty = false := by
      cases h : fens.isEmpty with
      | false => rfl
      | true => exact absurd h hfe
    by_cases hmiss : (providerMissedKeys settings engineId cache fens).isEmpty = true
    · have hres : (getAnalysesForFens settings engineId engineReply cache fens).result
          = pydict ((getCachedAnalysesBatch cache
              (providerAllCacheKeys settings engineId fens)).map (fun p => (p.1.fen, p.2))) := by
        simp [getAnalysesForFens, hfe', hmiss]
      have hst : (getAnalysesForFens settings engineId engineReply cache fens).stored = [] := by
        simp [getAnalysesForFens, hfe', hmiss]
      constructor
      · intro f hsome
        rw [hres, result_pydict_isSome] at hsome
        rcases hsome with ⟨k, hk, hkf⟩
        rcases List.mem_map.mp hk with ⟨p, hp, hp1⟩
        have hmem := (providerAllCacheKeys_canonical settings engineId fens p.1
            (mem_getCachedAnalysesBatch cache _ p hp)).2
        rw [hp1, hkf] at hmem
        exact hmem
      · intro k hsome
        rw [hst] at hsome
        simp [alookup] at hsome
    · have hmiss' : (providerMissedKeys settings engineId cache fens).isEmpty = false := by
        cases h : (providerMissedKeys settings engineId cache fens).isEmpty with
        | false => rfl
        | true => exact absurd h hmiss
      have hres : (getAnalysesForFens settings engineId engineReply cache fens).result
          = pydict (((providerResultsToStore
              (pydict ((providerMissedKeys settings engineId cache fens).map
                (fun k => (k.fen, k))))
              (engineReply ((providerMissedKeys settings engineId cache fens).map
                CacheKey.fen))).foldl (fun m p => dinsert m p.1 p.2)
              (getCachedAnalysesBatch cache (providerAllCacheKeys settings engineId fens))).map
                (fun p => (p.1.fen, p.2))) := by
        simp [getAnalysesForFens, hfe', hmiss']
      have hst : (getAnalysesForFens settings engineId engineReply cache fens).stored
          = providerResultsToStore
              (pydict ((providerMissedKeys settings engineId cache fens).map
                (fun k => (k.fen, k))))
              (engineReply ((providerMissedKeys settings engineId cache fens).map
                CacheKey.fen)) := by
        simp [getAnalysesForFens, hfe', hmiss']
      constructor
      · intro f hsome
        rw [hres, result_pydict_isSome] at hsome
        rcases hsome with ⟨k, hk, hkf⟩
        rcases List.mem_map.mp hk with ⟨p, hp, hp1⟩
        rcases mem_foldl_dinsert _ _ _ hp with hstore | hcached
        · rcases mem_storeFold _ _ _ _ hstore with habs | ⟨q, hq, hqk⟩
          · cases habs
          · rcases keyMap_sound _ _ _ hqk with ⟨hkm, _⟩
            have hmem := (providerAllCacheKeys_canonical settings engineId fens p.1
                ((mem_providerMissedKeys _ _ _ _ _).mp hkm).1).2
            rw [hp1, hkf] at hmem
            exact hmem
        · have hmem := (providerAllCacheKeys_canonical settings engineId fens p.1
              (mem_getCachedAnalysesBatch cache _ p hcached)).2
          rw [hp1, hkf] at hmem
          exact hmem
      · intro k hsome
        rw [hst, providerResultsToStore_isSome] at hsome
        rcases hsome with ⟨q, hq, hqk⟩
        rcases keyMap_sound _ _ _ hqk with ⟨hkm, _⟩
        exact (mem_providerMissedKeys _ _ _ _ _).mp hkm

/-- Witness for `getAnalyses_result_keys_subset`: with an engine reply
containing an extra FEN `"zz"`, a returned FEN is a requested one and the
stored key is the missing requested key. -/
theorem getAnalyses_result_keys_subset_witness :
    "f2" ∈ ["f1", "f2"] ∧
    (mkCacheKey witnessSettings "stockfish" "f2" ∈
        ["f1", "f2"].map (mkCacheKey witnessSettings "stockfish") ∧
      (alookup witnessCache (mkCacheKey witnessSettings "stockfish" "f2")).isNone = true) := by
  have h := getAnalyses_result_keys_subset witnessSettings "stockfish" extraEngineReply
      witnessCache ["f1", "f2"]
  exact ⟨h.1 "f2" (by decide), h.2 (mkCacheKey witnessSettings "stockfish" "f2") (by decide)⟩

end ChessAnalyzer
